import Mathlib

set_option maxHeartbeats 1000000

/-!
Shallow embedding of the Verification Workflow Engine of
`src/context/VerifyContext.js`: the provider state, the selection engine
(`clickCapture`), the page loader (`loadCaptureImages`), the batch
processor (`approveAll`, `undoAll`) and the undo helper
(`undoedCaptureImage`).  External API calls (approve / reject / tag /
undo / fetch) are modelled by oracle functions deciding whether each call
succeeds, and each operation additionally returns the trace of external
calls it issued together with the sequence of progress values it set.
Numbers are modelled in ℚ (ids in ℕ).
-/

/-- A capture image, identified by its integer id. -/
structure CaptureImage where
  id : Nat
deriving Repr, DecidableEq

/-- The fields of the approve-action descriptor that drive control flow in
`approve`: whether the item is approved (versus rejected), and whether its
`tags` field is truthy (so that `createCaptureTags` is also called). -/
structure ApproveAction where
  isApproved : Bool
  tags : Bool
deriving Repr, DecidableEq

/-- The state held by `VerifyProvider` (the fields the workflow engine
reads and writes; the filter and the cached count value are opaque to the
claims and omitted beyond the invalidation flag). -/
structure VerifyState where
  captureImages : List CaptureImage
  captureImagesUndo : List CaptureImage
  captureImagesSelected : List Nat
  captureImageAnchor : Option Nat
  isLoading : Bool
  isApproveAllProcessing : Bool
  approveAllComplete : ℚ
  pageSize : Nat
  currentPage : Nat
  invalidateCaptureCount : Bool
deriving Repr, DecidableEq

/-- `captureImages.reduce((a, c, i) => c.id === target ? i : a, -1)`:
the last index whose id equals `target`, with accumulator starting at
`-1`. -/
def lastIndexAux : List CaptureImage → Nat → Nat → Int → Int
  | [], _, _, acc => acc
  | c :: rest, target, i, acc =>
      lastIndexAux rest target (i + 1) (if c.id = target then (i : Int) else acc)

/-- Index of the last entry of `images` whose id is `target`, `-1` when
absent (as the JS reduce computes it). -/
def lastIndexOfId (images : List CaptureImage) (target : Nat) : Int :=
  lastIndexAux images target 0 (-1)

/-- ECMAScript `Array.prototype.slice` index resolution: a negative index
counts from the end (clamped below at 0), a non-negative one is clamped
above at the length. -/
def sliceIndex (len : Nat) (x : Int) : Nat :=
  if x < 0 then ((len : Int) + x).toNat else min x.toNat len

/-- ECMAScript `Array.prototype.slice l start stop`. -/
def jsSlice {α : Type} (l : List α) (start stop : Int) : List α :=
  let s := sliceIndex l.length start
  let e := sliceIndex l.length stop
  (l.drop s).take (e - s)

/-- The payload of `clickCapture`. -/
structure ClickPayload where
  captureId : Nat
  isShift : Bool
  isCmd : Bool
  isCtrl : Bool
deriving Repr, DecidableEq

/-- The anchor index of the shift branch of `clickCapture`: 0 when no
anchor is set, otherwise the reduce over the working set with initial
accumulator `-1` (hence `-1` when the anchor id is set but absent). -/
def anchorIndex (s : VerifyState) : Int :=
  match s.captureImageAnchor with
  | none => 0
  | some a => lastIndexOfId s.captureImages a

/-- `clickCapture` of the source.  In the cmd/ctrl branch the source tests
`captureImagesSelected.find((el) => el === captureId)` for truthiness: the
found element is `captureId` itself, which is falsy exactly when it is the
number 0, hence the extra `captureId ≠ 0` conjunct. -/
def clickCapture (s : VerifyState) (p : ClickPayload) : VerifyState :=
  if !p.isShift && !p.isCmd && !p.isCtrl then
    { s with
      captureImagesSelected := [p.captureId]
      captureImageAnchor := some p.captureId }
  else if p.isShift then
    let indexAnchor : Int := anchorIndex s
    let indexCurrent : Int := lastIndexOfId s.captureImages p.captureId
    let sel := (jsSlice s.captureImages (min indexAnchor indexCurrent)
        (max indexAnchor indexCurrent + 1)).map (fun c => c.id)
    { s with captureImagesSelected := sel }
  else
    if p.captureId ≠ 0 ∧ p.captureId ∈ s.captureImagesSelected then
      { s with captureImagesSelected :=
          s.captureImagesSelected.filter (fun c => c ≠ p.captureId) }
    else
      { s with captureImagesSelected := s.captureImagesSelected ++ [p.captureId] }

/-- Outcome of `loadCaptureImages`: the new state, the `(skip, rowsPerPage)`
pair of the fetch that was issued (or `none` when the call was dropped),
and the reported result. -/
structure LoadOutcome where
  finalState : VerifyState
  fetched : Option (Nat × Nat)
  success : Bool
deriving Repr, DecidableEq

/-- `loadCaptureImages` of the source; `result` is the page the external
fetch returns. -/
def loadCaptureImages (s : VerifyState) (result : List CaptureImage) : LoadOutcome :=
  if s.isLoading then
    { finalState := s, fetched := none, success := true }
  else
    { finalState := { s with captureImages := result, isLoading := false }
      fetched := some (s.pageSize * s.currentPage, s.pageSize)
      success := true }

/-- `captureImages.reduce((a, c) => (c && c.id === captureId) ? c : a,
undefined)`: the last entry of the working set whose id matches. -/
def resolveCapture (images : List CaptureImage) (target : Nat) : Option CaptureImage :=
  images.foldl (fun a c => if c.id = target then some c else a) none

/-- One external call issued by `approve`: the approve-or-reject call for
an id, or the tag-creation call for an id. -/
inductive ApiCall where
  | main (id : Nat)
  | tag (id : Nat)
deriving Repr, DecidableEq

/-- The ids of the approve/reject calls of a trace, in order. -/
def mainCallIds (calls : List ApiCall) : List Nat :=
  calls.filterMap (fun c => match c with | .main i => some i | .tag _ => none)

/-- Outcome of the body of `approveAll`'s try-block: trace of external
calls, progress values set by `setApproveAllComplete`, the last progress
value in effect, and whether the loop ran to completion. -/
structure ItemsResult where
  calls : List ApiCall
  progress : List ℚ
  finalPercent : ℚ
  success : Bool
deriving Repr, DecidableEq

/-- The loop of `approveAll`, processing the selected ids in order starting
at loop index `i` with `percentComplete` currently `p`.  Each item first
resolves its image from the working set (a missing image makes the member
access `captureImage.id` throw), then `approve` runs: it throws when the
action descriptor is absent, otherwise issues the approve-or-reject call
(success decided by `mainOk i`) and, when `action.tags` is truthy, the
tag-creation call (success decided by `tagOk i`); on item success the
progress is set to `100 * ((i + 1) / total)`. -/
def approveItems (images : List CaptureImage) (action : Option ApproveAction)
    (mainOk tagOk : Nat → Bool) (total : Nat) :
    List Nat → Nat → ℚ → ItemsResult
  | [], _, p => ⟨[], [], p, true⟩
  | target :: rest, i, p =>
    match resolveCapture images target with
    | none => ⟨[], [], p, false⟩
    | some c =>
      match action with
      | none => ⟨[], [], p, false⟩
      | some a =>
        if mainOk i = false then ⟨[ApiCall.main c.id], [], p, false⟩
        else if a.tags && !(tagOk i) then
          ⟨[ApiCall.main c.id, ApiCall.tag c.id], [], p, false⟩
        else
          let p2 : ℚ := 100 * (((i : ℚ) + 1) / (total : ℚ))
          let r := approveItems images action mainOk tagOk total rest (i + 1) p2
          ⟨ApiCall.main c.id :: (if a.tags then [ApiCall.tag c.id] else []) ++ r.calls,
           p2 :: r.progress, r.finalPercent, r.success⟩

/-- Outcome of a batch operation: final state, call trace, progress values
set during the batch, reported result. -/
structure ApproveOutcome where
  finalState : VerifyState
  calls : List ApiCall
  progress : List ℚ
  success : Bool
deriving Repr, DecidableEq

/-- The pre-batch snapshot taken by `approveAll`:
`captureImages.filter((capture) => captureImagesSelected.some((id) => id === capture.id))`. -/
def preBatchSnapshot (s : VerifyState) : List CaptureImage :=
  s.captureImages.filter (fun c => s.captureImagesSelected.any (fun i => i = c.id))

/-- `approveAll` of the source.  `loadResult` is the page returned by the
reload on the success path.  On failure the catch-block resets the two
flags and returns false, leaving the snapshot uninstalled and every other
field untouched; on success the snapshot is installed as the undo list,
the page is reloaded, the flags and the progress are reset, the count is
invalidated and the selection is cleared. -/
def approveAll (s : VerifyState) (action : Option ApproveAction)
    (mainOk tagOk : Nat → Bool) (loadResult : List CaptureImage) : ApproveOutcome :=
  let s1 := { s with isLoading := true, isApproveAllProcessing := true }
  let total := s.captureImagesSelected.length
  let undo := preBatchSnapshot s
  let r := approveItems s.captureImages action mainOk tagOk total
      s.captureImagesSelected 0 s.approveAllComplete
  if r.success then
    let s2 := { s1 with
      approveAllComplete := r.finalPercent
      captureImagesUndo := undo
      isLoading := false }
    let l := loadCaptureImages s2 loadResult
    { finalState := { l.finalState with
        isApproveAllProcessing := false
        approveAllComplete := 0
        invalidateCaptureCount := true
        captureImagesSelected := []
        captureImageAnchor := none }
      calls := r.calls
      progress := r.progress
      success := true }
  else
    { finalState := { s1 with
        approveAllComplete := r.finalPercent
        isLoading := false
        isApproveAllProcessing := false }
      calls := r.calls
      progress := r.progress
      success := false }

/-- Insert a capture into a list sorted by ascending id. -/
def insertById (c : CaptureImage) : List CaptureImage → List CaptureImage
  | [] => [c]
  | d :: rest => if c.id < d.id then c :: d :: rest else d :: insertById c rest

/-- Stable ascending sort by id, as `sort((a, b) => a.id - b.id)`. -/
def sortById : List CaptureImage → List CaptureImage
  | [] => []
  | c :: rest => insertById c (sortById rest)

/-- Mirrors the call `undoedCaptureImage(id)` of the source: the helper is
declared with parameters `(state, captureId)` but invoked with a single
argument, so inside the body `captureId` is `undefined`.  Hence the reduce
(which has no initial value) returns the first entry of the undo list, the
filter `capture.id !== captureId` keeps every entry, and the undo list is
stored back unchanged while the first undo entry is appended to the
working set and the result sorted by id.  (On an empty undo list the
reduce would throw; that is unreachable from `undoAll`.) -/
def undoedCaptureImage (s : VerifyState) (_id : Nat) : VerifyState :=
  match s.captureImagesUndo with
  | [] => s
  | first :: _ =>
    { s with captureImages := sortById (s.captureImages ++ [first]) }

/-- Outcome of `undoAll`: final state, ids of the undo calls issued in
order, progress values set, reported result. -/
structure UndoOutcome where
  finalState : VerifyState
  calls : List Nat
  progress : List ℚ
  success : Bool
deriving Repr, DecidableEq

/-- The loop of `undoAll`: `for (i = 0; i < captureImagesUndo.length; i++)`
over the current undo list, issuing the external undo call for entry `i`
(success decided by `undoOk i`), then running `undoedCaptureImage`, setting
the progress to `100 * ((i + 1) / total)` and invalidating the count.  The
`fuel` argument only bounds the recursion; it is initialised to the list
length, which `undoedCaptureImage` preserves, so the loop always exits by
its own guard. -/
def undoLoop (undoOk : Nat → Bool) (total : Nat) :
    Nat → Nat → VerifyState → UndoOutcome
  | 0, _, s => ⟨s, [], [], true⟩
  | fuel + 1, i, s =>
    if h : i < s.captureImagesUndo.length then
      let captureImage := s.captureImagesUndo.get ⟨i, h⟩
      if undoOk i then
        let s1 := undoedCaptureImage s captureImage.id
        let p : ℚ := 100 * (((i : ℚ) + 1) / (total : ℚ))
        let s2 := { s1 with approveAllComplete := p, invalidateCaptureCount := true }
        let r := undoLoop undoOk total fuel (i + 1) s2
        ⟨r.finalState, captureImage.id :: r.calls, p :: r.progress, r.success⟩
      else
        ⟨s, [captureImage.id], [], false⟩
    else ⟨s, [], [], true⟩

/-- `undoAll` of the source.  On failure the catch-block sets the two
flags to true (not false) and returns false; on success the flags are
cleared, progress reset, count invalidated and selection cleared. -/
def undoAll (s : VerifyState) (undoOk : Nat → Bool) : UndoOutcome :=
  let s1 := { s with isLoading := true, isApproveAllProcessing := true }
  let total := s.captureImagesUndo.length
  let r := undoLoop undoOk total total 0 s1
  if r.success then
    { r with
      finalState := { r.finalState with
        isLoading := false
        isApproveAllProcessing := false
        approveAllComplete := 0
        invalidateCaptureCount := true
        captureImagesSelected := []
        captureImageAnchor := none } }
  else
    { r with
      finalState := { r.finalState with
        isLoading := true
        isApproveAllProcessing := true } }

/-- Per-item success of `approveAll`'s loop body under action `a`: the
approve-or-reject call succeeds and, when tags are present, so does the
tag-creation call. -/
def itemOk (a : ApproveAction) (mainOk tagOk : Nat → Bool) (i : Nat) : Prop :=
  mainOk i = true ∧ (a.tags = true → tagOk i = true)

instance (a : ApproveAction) (mainOk tagOk : Nat → Bool) (i : Nat) :
    Decidable (itemOk a mainOk tagOk i) := by
  unfold itemOk; infer_instance

/-- The progress discipline claimed for a batch over `n` items: the value
set after the `j`-th successfully processed item (0-based) is
`100 * ((j + 1) / n)`, the values are monotonically non-decreasing, they
stay within `[0, 100]`, and they end at exactly 100 when the batch
succeeds. -/
def progressSpec (ps : List ℚ) (n : Nat) (succeeded : Bool) : Prop :=
  (∀ j (h : j < ps.length),
    ps.get ⟨j, h⟩ = 100 * (((j : ℚ) + 1) / (n : ℚ))) ∧
  List.Chain' (fun a b : ℚ => a ≤ b) ps ∧
  (∀ q ∈ ps, 0 ≤ q ∧ q ≤ 100) ∧
  (succeeded = true → ps.getLast? = some 100)

/-- A convenient base state for concrete witnesses/counterexamples. -/
def baseState : VerifyState :=
  { captureImages := []
    captureImagesUndo := []
    captureImagesSelected := []
    captureImageAnchor := none
    isLoading := false
    isApproveAllProcessing := false
    approveAllComplete := 0
    pageSize := 24
    currentPage := 0
    invalidateCaptureCount := false }

/-- Concrete working set and selection used by several witnesses. -/
def stateApproveSmall : VerifyState := { baseState with
  captureImages := [⟨1⟩, ⟨2⟩, ⟨3⟩]
  captureImagesSelected := [3, 1]
  captureImageAnchor := some 3 }

/-- Concrete state with an empty selection (for the missing-action case). -/
def stateEmptySelection : VerifyState := { baseState with
  captureImages := [⟨1⟩, ⟨2⟩] }

/-- Concrete state whose anchor id 99 is not in the working set. -/
def stateAnchorStale : VerifyState := { baseState with
  captureImages := [⟨1⟩, ⟨2⟩, ⟨3⟩]
  captureImageAnchor := some 99 }

/-- Concrete state with ids 2 and 4 selected. -/
def stateToggle : VerifyState := { baseState with
  captureImages := [⟨2⟩, ⟨4⟩]
  captureImagesSelected := [2, 4] }

/-- Concrete state with a two-entry undo list and empty working set. -/
def stateUndoPair : VerifyState := { baseState with
  captureImagesUndo := [⟨2⟩, ⟨5⟩] }

/-- `resolveCapture` only ever returns an image whose id is the target. -/
theorem resolveCapture_id (l : List CaptureImage) (t : Nat) :
    ∀ c, resolveCapture l t = some c → c.id = t := by
  have aux : ∀ (l : List CaptureImage) (acc : Option CaptureImage),
      (∀ c, acc = some c → c.id = t) →
      ∀ c, l.foldl (fun a c => if c.id = t then some c else a) acc = some c → c.id = t := by
    intro l
    induction l with
    | nil => intro acc h c hc; exact h c hc
    | cons d rest ih =>
      intro acc h c hc
      refine ih _ ?_ c hc
      intro e he
      by_cases hd : d.id = t
      · simp [hd] at he; subst he; exact hd
      · simp [hd] at he; exact h e he
  intro c hc
  exact aux l none (by intro c h; cases h) c hc

/-- `undoedCaptureImage` stores the undo list back unchanged. -/
theorem undoedCaptureImage_undo (s : VerifyState) (t : Nat) :
    (undoedCaptureImage s t).captureImagesUndo = s.captureImagesUndo := by
  unfold undoedCaptureImage
  cases h : s.captureImagesUndo <;> simp [h]

/-- Helper: the flags of `undoAll`'s failure path. -/
theorem undoAll_fail_flags (s : VerifyState) (undoOk : Nat → Bool)
    (h : (undoAll s undoOk).success = false) :
    (undoAll s undoOk).finalState.isLoading = true ∧
    (undoAll s undoOk).finalState.isApproveAllProcessing = true := by
  by_cases hc : (undoLoop undoOk s.captureImagesUndo.length s.captureImagesUndo.length 0
      { s with isLoading := true, isApproveAllProcessing := true }).success
  · simp [undoAll, hc] at h
  · simp [undoAll, hc]

/-- Helper: the flags of `approveAll`'s failure path. -/
theorem approveAll_fail_flags (s : VerifyState) (action : Option ApproveAction)
    (mainOk tagOk : Nat → Bool) (loadResult : List CaptureImage)
    (h : (approveAll s action mainOk tagOk loadResult).success = false) :
    (approveAll s action mainOk tagOk loadResult).finalState.isLoading = false ∧
    (approveAll s action mainOk tagOk loadResult).finalState.isApproveAllProcessing = false := by
  by_cases hc : (approveItems s.captureImages action mainOk tagOk
      s.captureImagesSelected.length s.captureImagesSelected 0 s.approveAllComplete).success
  · simp [approveAll, hc] at h
  · simp [approveAll, hc]

/-- C5: on a per-item failure `undoAll` halts and reports failure but leaves
LoadingState and isProcessing set to true, whereas `approveAll`'s failure
path resets both flags to false. -/
theorem batch_failure_flag_asymmetry :
    (∀ (s : VerifyState) (undoOk : Nat → Bool),
        (undoAll s undoOk).success = false →
          (undoAll s undoOk).finalState.isLoading = true ∧
          (undoAll s undoOk).finalState.isApproveAllProcessing = true) ∧
    (∀ (s : VerifyState) (action : Option ApproveAction) (mainOk tagOk : Nat → Bool)
        (loadResult : List CaptureImage),
        (approveAll s action mainOk tagOk loadResult).success = false →
          (approveAll s action mainOk tagOk loadResult).finalState.isLoading = false ∧
          (approveAll s action mainOk tagOk loadResult).finalState.isApproveAllProcessing = false) :=
  ⟨fun s undoOk h => undoAll_fail_flags s undoOk h,
   fun s action mainOk tagOk loadResult h =>
     approveAll_fail_flags s action mainOk tagOk loadResult h⟩

/-- Witness for C5 at concrete failing batches. -/
theorem batch_failure_flag_asymmetry_witness :
    ((undoAll stateUndoPair (fun _ => false)).finalState.isLoading = true ∧
      (undoAll stateUndoPair (fun _ => false)).finalState.isApproveAllProcessing = true) ∧
    ((approveAll stateApproveSmall (some ⟨true, false⟩) (fun _ => false) (fun _ => true)
        []).finalState.isLoading = false ∧
      (approveAll stateApproveSmall (some ⟨true, false⟩) (fun _ => false) (fun _ => true)
        []).finalState.isApproveAllProcessing = false) :=
  ⟨batch_failure_flag_asymmetry.1 stateUndoPair (fun _ => false) (by decide),
   batch_failure_flag_asymmetry.2 stateApproveSmall (some ⟨true, false⟩)
     (fun _ => false) (fun _ => true) [] (by decide)⟩

/-- C9: a load requested while one is in flight is dropped (no fetch, no
state change) yet reports success; otherwise the loader fetches with
`skip = pageSize * currentPage` and `rowsPerPage = pageSize`, replaces the
working set wholesale, and clears the loading flag. -/
theorem loadCaptureImages_drop_or_fetch (s : VerifyState) (result : List CaptureImage) :
    (s.isLoading = true →
      (loadCaptureImages s result).finalState = s ∧
      (loadCaptureImages s result).fetched = none ∧
      (loadCaptureImages s result).success = true) ∧
    (s.isLoading = false →
      (loadCaptureImages s result).fetched = some (s.pageSize * s.currentPage, s.pageSize) ∧
      (loadCaptureImages s result).finalState.captureImages = result ∧
      (loadCaptureImages s result).finalState.isLoading = false ∧
      (loadCaptureImages s result).success = true) := by
  constructor
  · intro h; simp [loadCaptureImages, h]
  · intro h; simp [loadCaptureImages, h]

/-- Witness for C9: a dropped call on a loading state, a fetch otherwise. -/
theorem loadCaptureImages_drop_or_fetch_witness :
    ((loadCaptureImages { baseState with isLoading := true } [⟨9⟩]).fetched = none ∧
      (loadCaptureImages { baseState with isLoading := true } [⟨9⟩]).success = true) ∧
    ((loadCaptureImages baseState [⟨9⟩]).fetched = some (0, 24) ∧
      (loadCaptureImages baseState [⟨9⟩]).finalState.captureImages = [⟨9⟩]) :=
  ⟨⟨((loadCaptureImages_drop_or_fetch { baseState with isLoading := true } [⟨9⟩]).1
        (by decide)).2.1,
    ((loadCaptureImages_drop_or_fetch { baseState with isLoading := true } [⟨9⟩]).1
        (by decide)).2.2⟩,
   ⟨((loadCaptureImages_drop_or_fetch baseState [⟨9⟩]).2 (by decide)).1,
    ((loadCaptureImages_drop_or_fetch baseState [⟨9⟩]).2 (by decide)).2.1⟩⟩

/-- C10: a plain click selects exactly the clicked id and makes it the
anchor, with no check that the id is present in the working set. -/
theorem plain_click_no_membership_validation (s : VerifyState) (captureId : Nat)
    (h : captureId ∉ s.captureImages.map (fun c => c.id)) :
    (clickCapture s ⟨captureId, false, false, false⟩).captureImagesSelected = [captureId] ∧
    (clickCapture s ⟨captureId, false, false, false⟩).captureImageAnchor = some captureId := by
  simp [clickCapture]

/-- Witness for C10: id 42 is absent from the working set yet becomes the
sole selection and the anchor. -/
theorem plain_click_no_membership_validation_witness :
    (clickCapture stateApproveSmall ⟨42, false, false, false⟩).captureImagesSelected = [42] ∧
    (clickCapture stateApproveSmall ⟨42, false, false, false⟩).captureImageAnchor = some 42 :=
  plain_click_no_membership_validation stateApproveSmall 42 (by decide)

/-- Counterexample to C6: with an empty selection, `approveAll` with an
absent action descriptor runs zero iterations and reports success. -/
theorem approveAll_missing_action_empty_success_cex :
    (approveAll stateEmptySelection none (fun _ => true) (fun _ => true) []).success = true ∧
    (approveAll stateEmptySelection none (fun _ => true) (fun _ => true) []).calls = [] := by
  decide

/-- C6 (amended): with a non-empty selection, `approveAll` with an absent
action descriptor fails on the first item, before any external call. -/
theorem approveAll_missing_action_fails_amended (s : VerifyState)
    (mainOk tagOk : Nat → Bool) (loadResult : List CaptureImage)
    (h : s.captureImagesSelected ≠ []) :
    (approveAll s none mainOk tagOk loadResult).success = false ∧
    (approveAll s none mainOk tagOk loadResult).calls = [] := by
  obtain ⟨t, rest, hsel⟩ := List.exists_cons_of_ne_nil h
  unfold approveAll
  rw [hsel]
  cases hres : resolveCapture s.captureImages t <;>
    simp [approveItems, hres]

/-- Witness for the amended C6. -/
theorem approveAll_missing_action_fails_amended_witness :
    (approveAll stateApproveSmall none (fun _ => true) (fun _ => true) []).success = false ∧
    (approveAll stateApproveSmall none (fun _ => true) (fun _ => true) []).calls = [] :=
  approveAll_missing_action_fails_amended stateApproveSmall
    (fun _ => true) (fun _ => true) [] (by decide)

/-- Counterexample to C7: with selection `[2, 4]`, ctrl-clicking id 2 twice
yields `[4, 2]`, not the original ordered sequence `[2, 4]`. -/
theorem modifier_double_click_order_cex :
    (clickCapture (clickCapture stateToggle ⟨2, false, false, true⟩)
        ⟨2, false, false, true⟩).captureImagesSelected = [4, 2] ∧
    (clickCapture (clickCapture stateToggle ⟨2, false, false, true⟩)
        ⟨2, false, false, true⟩).captureImagesSelected ≠
      stateToggle.captureImagesSelected := by
  decide

/-- C7 (amended): for a nonzero id, two consecutive modifier clicks on the
same id preserve the selection as a set and leave the anchor unchanged;
the exact sequence is restored when the id was not previously selected,
while a previously selected id is moved to the end. -/
theorem modifier_double_click_toggle_amended (s : VerifyState) (captureId : Nat)
    (h0 : captureId ≠ 0) :
    (∀ x, x ∈ (clickCapture (clickCapture s ⟨captureId, false, false, true⟩)
          ⟨captureId, false, false, true⟩).captureImagesSelected ↔
        x ∈ s.captureImagesSelected) ∧
    (clickCapture (clickCapture s ⟨captureId, false, false, true⟩)
        ⟨captureId, false, false, true⟩).captureImageAnchor = s.captureImageAnchor ∧
    (captureId ∉ s.captureImagesSelected →
      (clickCapture (clickCapture s ⟨captureId, false, false, true⟩)
          ⟨captureId, false, false, true⟩).captureImagesSelected =
        s.captureImagesSelected) ∧
    (captureId ∈ s.captureImagesSelected →
      (clickCapture (clickCapture s ⟨captureId, false, false, true⟩)
          ⟨captureId, false, false, true⟩).captureImagesSelected =
        s.captureImagesSelected.filter (fun c => c ≠ captureId) ++ [captureId]) := by
  by_cases hmem : captureId ∈ s.captureImagesSelected
  · have hstep1 : clickCapture s ⟨captureId, false, false, true⟩ =
        { s with captureImagesSelected :=
            s.captureImagesSelected.filter (fun c => c ≠ captureId) } := by
      simp [clickCapture, h0, hmem]
    have hstep2 : clickCapture { s with captureImagesSelected :=
          s.captureImagesSelected.filter (fun c => c ≠ captureId) }
          ⟨captureId, false, false, true⟩ =
        { s with captureImagesSelected :=
            s.captureImagesSelected.filter (fun c => c ≠ captureId) ++ [captureId] } := by
      simp [clickCapture, h0]
    rw [hstep1, hstep2]
    refine ⟨?_, rfl, fun hn => absurd hmem hn, fun _ => rfl⟩
    intro x
    simp only [List.mem_append, List.mem_filter, List.mem_singleton]
    constructor
    · rintro (⟨hx, _⟩ | rfl)
      · exact hx
      · exact hmem
    · intro hx
      by_cases hxc : x = captureId
      · right; exact hxc
      · left; exact ⟨hx, by simpa using hxc⟩
  · have hstep1 : clickCapture s ⟨captureId, false, false, true⟩ =
        { s with captureImagesSelected := s.captureImagesSelected ++ [captureId] } := by
      simp [clickCapture, hmem]
    have hkeep : List.filter (fun c => !decide (c = captureId)) s.captureImagesSelected
        = s.captureImagesSelected := by
      rw [List.filter_eq_self]
      intro a ha
      simp only [Bool.not_eq_true', decide_eq_false_iff_not]
      exact fun e => hmem (e ▸ ha)
    have hstep2 : clickCapture { s with captureImagesSelected :=
          s.captureImagesSelected ++ [captureId] } ⟨captureId, false, false, true⟩ =
        { s with captureImagesSelected := s.captureImagesSelected } := by
      simp [clickCapture, h0, List.filter_append, hkeep]
    rw [hstep1, hstep2]
    exact ⟨fun x => Iff.rfl, rfl, fun _ => rfl, fun hy => absurd hy hmem⟩

/-- Witness for the amended C7. -/
theorem modifier_double_click_toggle_amended_witness :
    (clickCapture (clickCapture stateToggle ⟨2, false, false, true⟩)
        ⟨2, false, false, true⟩).captureImagesSelected =
      stateToggle.captureImagesSelected.filter (fun c => c ≠ 2) ++ [2] :=
  (modifier_double_click_toggle_amended stateToggle 2 (by decide)).2.2.2 (by decide)

/-- C4 evaluated at the failing input: `undoAll` over the undo list
`[{id 2}, {id 5}]` with every external undo call succeeding reports
success, yet leaves the undo list intact and appends two copies of its
first entry to the working set, because `undoedCaptureImage` is invoked
with one argument though declared with two. -/
theorem undoAll_drops_nothing_bug :
    (undoAll stateUndoPair (fun _ => true)).success = true ∧
    (undoAll stateUndoPair (fun _ => true)).calls = [2, 5] ∧
    (undoAll stateUndoPair (fun _ => true)).finalState.captureImages = [⟨2⟩, ⟨2⟩] ∧
    (undoAll stateUndoPair (fun _ => true)).finalState.captureImagesUndo = [⟨2⟩, ⟨5⟩] := by
  decide

/-- The try-block of `approveAll` succeeds and issues exactly the selected
ids as approve/reject calls, in order, when every item resolves and every
per-item external call succeeds. -/
theorem approveItems_all_ok (images : List CaptureImage) (a : ApproveAction)
    (mainOk tagOk : Nat → Bool) (total : Nat) :
    ∀ (sel : List Nat) (i : Nat) (p : ℚ),
      (∀ t ∈ sel, (resolveCapture images t).isSome = true) →
      (∀ j, i ≤ j → j < i + sel.length → itemOk a mainOk tagOk j) →
      (approveItems images (some a) mainOk tagOk total sel i p).success = true ∧
      mainCallIds (approveItems images (some a) mainOk tagOk total sel i p).calls = sel := by
  intro sel
  induction sel with
  | nil =>
    intro i p _ _
    exact ⟨rfl, rfl⟩
  | cons t rest ih =>
    intro i p hres hok
    obtain ⟨c, hc⟩ := Option.isSome_iff_exists.mp (hres t (by simp))
    have hcid : c.id = t := resolveCapture_id images t c hc
    obtain ⟨hmain, htag⟩ : itemOk a mainOk tagOk i :=
      hok i le_rfl (by simp only [List.length_cons]; omega)
    have htags : (a.tags && !(tagOk i)) = false := by
      cases hta : a.tags
      · simp
      · simp [htag hta]
    have ihc := ih (i + 1) (100 * (((i : ℚ) + 1) / (total : ℚ)))
      (fun u hu => hres u (by simp [hu]))
      (fun j hj1 hj2 => hok j (by omega) (by simp only [List.length_cons] at hj2 ⊢; omega))
    simp only [approveItems, hc, hmain, htags]
    simp only [Bool.true_eq_false, if_false, Bool.false_eq_true, if_false]
    refine ⟨ihc.1, ?_⟩
    cases hta : a.tags <;>
      simp [mainCallIds, hta, List.filterMap_append, hcid] <;>
      simpa [mainCallIds] using ihc.2

/-- The try-block of `approveAll` halts at the first failing item: when the
items before position `k` succeed and item `k`'s external processing fails,
the loop reports failure having issued exactly `k + 1` approve/reject
calls. -/
theorem approveItems_fail_at (images : List CaptureImage) (a : ApproveAction)
    (mainOk tagOk : Nat → Bool) (total : Nat) :
    ∀ (sel : List Nat) (k i : Nat) (p : ℚ),
      k < sel.length →
      (∀ t ∈ sel, (resolveCapture images t).isSome = true) →
      (∀ j, j < k → itemOk a mainOk tagOk (i + j)) →
      ¬ itemOk a mainOk tagOk (i + k) →
      (approveItems images (some a) mainOk tagOk total sel i p).success = false ∧
      (mainCallIds (approveItems images (some a) mainOk tagOk total sel i p).calls).length
        = k + 1 := by
  intro sel
  induction sel with
  | nil =>
    intro k i p hk
    exact absurd hk (by simp)
  | cons t rest ih =>
    intro k i p hk hres hprev hfail
    obtain ⟨c, hc⟩ := Option.isSome_iff_exists.mp (hres t (by simp))
    cases k with
    | zero =>
      simp only [Nat.add_zero] at hfail
      by_cases hmain : mainOk i = true
      · have hnb : ¬(a.tags = true → tagOk i = true) := fun hb => hfail ⟨hmain, hb⟩
        have hta : a.tags = true := by
          by_contra hta
          exact hnb (fun h => absurd h hta)
        have htg : tagOk i = false := by
          cases htg : tagOk i
          · rfl
          · exact absurd (fun _ => htg) hnb
        simp [approveItems, hc, hmain, hta, htg, mainCallIds]
      · have hm : mainOk i = false := by
          cases h : mainOk i
          · rfl
          · exact absurd h hmain
        simp [approveItems, hc, hm, mainCallIds]
    | succ n =>
      obtain ⟨hmain, htag⟩ : itemOk a mainOk tagOk i := by
        simpa using hprev 0 (Nat.succ_pos n)
      have htags : (a.tags && !(tagOk i)) = false := by
        cases hta : a.tags
        · simp
        · simp [htag hta]
      have hfail2 : ¬ itemOk a mainOk tagOk (i + 1 + n) := by
        rwa [show i + 1 + n = i + (n + 1) from by omega]
      have hprev2 : ∀ j, j < n → itemOk a mainOk tagOk (i + 1 + j) := by
        intro j hj
        have := hprev (j + 1) (by omega)
        rwa [show i + (j + 1) = i + 1 + j from by omega] at this
      have ihc := ih n (i + 1) (100 * (((i : ℚ) + 1) / (total : ℚ)))
        (by simp only [List.length_cons] at hk; omega)
        (fun u hu => hres u (by simp [hu])) hprev2 hfail2
      simp only [approveItems, hc, hmain, htags]
      simp only [Bool.true_eq_false, if_false, Bool.false_eq_true, if_false]
      refine ⟨ihc.1, ?_⟩
      cases hta : a.tags <;>
        simp [mainCallIds, hta, List.filterMap_append] at ihc ⊢ <;>
        omega

/-- The call trace reported by `approveAll` is the loop's call trace, on
the success and on the failure path alike. -/
theorem approveAll_calls (s : VerifyState) (action : Option ApproveAction)
    (mainOk tagOk : Nat → Bool) (loadResult : List CaptureImage) :
    (approveAll s action mainOk tagOk loadResult).calls =
      (approveItems s.captureImages action mainOk tagOk s.captureImagesSelected.length
        s.captureImagesSelected 0 s.approveAllComplete).calls := by
  by_cases hc : (approveItems s.captureImages action mainOk tagOk
      s.captureImagesSelected.length s.captureImagesSelected 0 s.approveAllComplete).success <;>
    simp [approveAll, hc]

/-- The state `approveAll` leaves behind when its loop ran to completion. -/
theorem approveAll_success_state (s : VerifyState) (action : Option ApproveAction)
    (mainOk tagOk : Nat → Bool) (loadResult : List CaptureImage)
    (h : (approveItems s.captureImages action mainOk tagOk s.captureImagesSelected.length
        s.captureImagesSelected 0 s.approveAllComplete).success = true) :
    (approveAll s action mainOk tagOk loadResult).success = true ∧
    (approveAll s action mainOk tagOk loadResult).finalState.captureImagesUndo
      = preBatchSnapshot s ∧
    (approveAll s action mainOk tagOk loadResult).finalState.captureImagesSelected = [] ∧
    (approveAll s action mainOk tagOk loadResult).finalState.captureImageAnchor = none ∧
    (approveAll s action mainOk tagOk loadResult).finalState.isApproveAllProcessing = false ∧
    (approveAll s action mainOk tagOk loadResult).finalState.approveAllComplete = 0 ∧
    (approveAll s action mainOk tagOk loadResult).finalState.invalidateCaptureCount = true ∧
    (approveAll s action mainOk tagOk loadResult).finalState.captureImages = loadResult ∧
    (approveAll s action mainOk tagOk loadResult).finalState.isLoading = false := by
  simp [approveAll, h, loadCaptureImages]

/-- The state `approveAll` leaves behind when its loop failed: flags reset,
everything else untouched. -/
theorem approveAll_failure_state (s : VerifyState) (action : Option ApproveAction)
    (mainOk tagOk : Nat → Bool) (loadResult : List CaptureImage)
    (h : (approveItems s.captureImages action mainOk tagOk s.captureImagesSelected.length
        s.captureImagesSelected 0 s.approveAllComplete).success = false) :
    (approveAll s action mainOk tagOk loadResult).success = false ∧
    (approveAll s action mainOk tagOk loadResult).finalState.isLoading = false ∧
    (approveAll s action mainOk tagOk loadResult).finalState.isApproveAllProcessing = false ∧
    (approveAll s action mainOk tagOk loadResult).finalState.captureImagesUndo
      = s.captureImagesUndo ∧
    (approveAll s action mainOk tagOk loadResult).finalState.invalidateCaptureCount
      = s.invalidateCaptureCount ∧
    (approveAll s action mainOk tagOk loadResult).finalState.captureImages
      = s.captureImages ∧
    (approveAll s action mainOk tagOk loadResult).finalState.captureImagesSelected
      = s.captureImagesSelected := by
  simp [approveAll, h]

/-- C1: when `approveAll` runs with an action descriptor, every selected id
resolves in the working set and every per-item external call succeeds, the
call reports success and afterwards the undo list equals the pre-batch
snapshot of the selected images, the selection and anchor are cleared,
isProcessing is false, percentComplete is 0 and the count cache is marked
invalid. -/
theorem approveAll_success_postconditions (s : VerifyState) (a : ApproveAction)
    (mainOk tagOk : Nat → Bool) (loadResult : List CaptureImage)
    (hres : ∀ t ∈ s.captureImagesSelected, (resolveCapture s.captureImages t).isSome = true)
    (hok : ∀ j, j < s.captureImagesSelected.length → itemOk a mainOk tagOk j) :
    (approveAll s (some a) mainOk tagOk loadResult).success = true ∧
    (approveAll s (some a) mainOk tagOk loadResult).finalState.captureImagesUndo
      = preBatchSnapshot s ∧
    (approveAll s (some a) mainOk tagOk loadResult).finalState.captureImagesSelected = [] ∧
    (approveAll s (some a) mainOk tagOk loadResult).finalState.captureImageAnchor = none ∧
    (approveAll s (some a) mainOk tagOk loadResult).finalState.isApproveAllProcessing = false ∧
    (approveAll s (some a) mainOk tagOk loadResult).finalState.approveAllComplete = 0 ∧
    (approveAll s (some a) mainOk tagOk loadResult).finalState.invalidateCaptureCount = true := by
  have hloop := (approveItems_all_ok s.captureImages a mainOk tagOk
      s.captureImagesSelected.length s.captureImagesSelected 0 s.approveAllComplete hres
      (fun j _ hj2 => hok j (by omega))).1
  have hst := approveAll_success_state s (some a) mainOk tagOk loadResult hloop
  exact ⟨hst.1, hst.2.1, hst.2.2.1, hst.2.2.2.1, hst.2.2.2.2.1, hst.2.2.2.2.2.1,
    hst.2.2.2.2.2.2.1⟩

/-- Witness for C1 at a concrete fully-successful batch. -/
theorem approveAll_success_postconditions_witness :
    (approveAll stateApproveSmall (some ⟨true, true⟩) (fun _ => true) (fun _ => true)
      [⟨7⟩]).success = true ∧
    (approveAll stateApproveSmall (some ⟨true, true⟩) (fun _ => true) (fun _ => true)
      [⟨7⟩]).finalState.captureImagesUndo = preBatchSnapshot stateApproveSmall ∧
    (approveAll stateApproveSmall (some ⟨true, true⟩) (fun _ => true) (fun _ => true)
      [⟨7⟩]).finalState.captureImagesSelected = [] ∧
    (approveAll stateApproveSmall (some ⟨true, true⟩) (fun _ => true) (fun _ => true)
      [⟨7⟩]).finalState.captureImageAnchor = none ∧
    (approveAll stateApproveSmall (some ⟨true, true⟩) (fun _ => true) (fun _ => true)
      [⟨7⟩]).finalState.isApproveAllProcessing = false ∧
    (approveAll stateApproveSmall (some ⟨true, true⟩) (fun _ => true) (fun _ => true)
      [⟨7⟩]).finalState.approveAllComplete = 0 ∧
    (approveAll stateApproveSmall (some ⟨true, true⟩) (fun _ => true) (fun _ => true)
      [⟨7⟩]).finalState.invalidateCaptureCount = true :=
  approveAll_success_postconditions stateApproveSmall ⟨true, true⟩
    (fun _ => true) (fun _ => true) [⟨7⟩] (by decide)
    (fun j _ => ⟨rfl, fun _ => rfl⟩)

/-- C2: with every selected id resolvable, `approveAll` issues exactly one
approve/reject call per selected id, in selection order, when every item
succeeds; and when the items before position `k` succeed but item `k`
fails, exactly `k + 1` approve/reject calls were made, the loop halts, the
loading and processing flags are reset to false, failure is reported, and
the undo list, the count-invalidation flag and the working set are left
unchanged. -/
theorem approveAll_call_counts (s : VerifyState) (a : ApproveAction)
    (mainOk tagOk : Nat → Bool) (loadResult : List CaptureImage)
    (hres : ∀ t ∈ s.captureImagesSelected, (resolveCapture s.captureImages t).isSome = true) :
    ((∀ j, j < s.captureImagesSelected.length → itemOk a mainOk tagOk j) →
      (approveAll s (some a) mainOk tagOk loadResult).success = true ∧
      mainCallIds (approveAll s (some a) mainOk tagOk loadResult).calls
        = s.captureImagesSelected) ∧
    (∀ k, k < s.captureImagesSelected.length →
      (∀ j, j < k → itemOk a mainOk tagOk j) →
      ¬ itemOk a mainOk tagOk k →
      (approveAll s (some a) mainOk tagOk loadResult).success = false ∧
      (mainCallIds (approveAll s (some a) mainOk tagOk loadResult).calls).length = k + 1 ∧
      (approveAll s (some a) mainOk tagOk loadResult).finalState.isLoading = false ∧
      (approveAll s (some a) mainOk tagOk loadResult).finalState.isApproveAllProcessing
        = false ∧
      (approveAll s (some a) mainOk tagOk loadResult).finalState.captureImagesUndo
        = s.captureImagesUndo ∧
      (approveAll s (some a) mainOk tagOk loadResult).finalState.invalidateCaptureCount
        = s.invalidateCaptureCount ∧
      (approveAll s (some a) mainOk tagOk loadResult).finalState.captureImages
        = s.captureImages) := by
  constructor
  · intro hok
    have hloop := approveItems_all_ok s.captureImages a mainOk tagOk
      s.captureImagesSelected.length s.captureImagesSelected 0 s.approveAllComplete hres
      (fun j _ hj2 => hok j (by omega))
    have hst := approveAll_success_state s (some a) mainOk tagOk loadResult hloop.1
    refine ⟨hst.1, ?_⟩
    rw [approveAll_calls]
    exact hloop.2
  · intro k hk hprev hfail
    have hloop := approveItems_fail_at s.captureImages a mainOk tagOk
      s.captureImagesSelected.length s.captureImagesSelected k 0 s.approveAllComplete hk hres
      (fun j hj => by simpa using hprev j hj) (by simpa using hfail)
    have hst := approveAll_failure_state s (some a) mainOk tagOk loadResult hloop.1
    refine ⟨hst.1, ?_, hst.2.1, hst.2.2.1, hst.2.2.2.1, hst.2.2.2.2.1, hst.2.2.2.2.2.1⟩
    rw [approveAll_calls]
    exact hloop.2

/-- Witness for C2: a fully successful batch over `[3, 1]`, and a batch
whose second approve call fails after its first succeeded. -/
theorem approveAll_call_counts_witness :
    mainCallIds (approveAll stateApproveSmall (some ⟨true, false⟩)
        (fun _ => true) (fun _ => true) []).calls = [3, 1] ∧
    (mainCallIds (approveAll stateApproveSmall (some ⟨true, false⟩)
        (fun i => decide (i = 0)) (fun _ => true) []).calls).length = 2 ∧
    (approveAll stateApproveSmall (some ⟨true, false⟩)
        (fun i => decide (i = 0)) (fun _ => true) []).success = false :=
  ⟨((approveAll_call_counts stateApproveSmall ⟨true, false⟩ (fun _ => true) (fun _ => true)
      [] (by decide)).1 (fun j _ => ⟨rfl, fun _ => rfl⟩)).2,
   ((approveAll_call_counts stateApproveSmall ⟨true, false⟩ (fun i => decide (i = 0))
      (fun _ => true) [] (by decide)).2 1 (by decide) (by decide) (by decide)).2.1,
   ((approveAll_call_counts stateApproveSmall ⟨true, false⟩ (fun i => decide (i = 0))
      (fun _ => true) [] (by decide)).2 1 (by decide) (by decide) (by decide)).1⟩

/-- The progress values set by `approveAll`'s loop from index `i` are
`100 * ((i + j + 1) / total)` for `j` below the number of successfully
processed items, and every item was processed when the loop succeeds. -/
theorem approveItems_progress (images : List CaptureImage) (action : Option ApproveAction)
    (mainOk tagOk : Nat → Bool) (total : Nat) :
    ∀ (sel : List Nat) (i : Nat) (p : ℚ),
      ∃ m, m ≤ sel.length ∧
        (approveItems images action mainOk tagOk total sel i p).progress
          = (List.range m).map (fun j => 100 * ((((i + j : Nat) : ℚ) + 1) / (total : ℚ))) ∧
        ((approveItems images action mainOk tagOk total sel i p).success = true →
          m = sel.length) := by
  intro sel
  induction sel with
  | nil =>
    intro i p
    exact ⟨0, by simp [approveItems]⟩
  | cons t rest ih =>
    intro i p
    cases hc : resolveCapture images t with
    | none =>
      exact ⟨0, by simp, by simp [approveItems, hc], by simp [approveItems, hc]⟩
    | some c =>
      cases action with
      | none =>
        exact ⟨0, by simp, by simp [approveItems, hc], by simp [approveItems, hc]⟩
      | some a =>
        by_cases hm : mainOk i = false
        · exact ⟨0, by simp, by simp [approveItems, hc, hm], by simp [approveItems, hc, hm]⟩
        · by_cases ht : (a.tags && !(tagOk i)) = true
          · exact ⟨0, by simp, by simp [approveItems, hc, hm, ht],
              by simp [approveItems, hc, hm, ht]⟩
          · obtain ⟨m, hm1, hm2, hm3⟩ := ih (i + 1) (100 * (((i : ℚ) + 1) / (total : ℚ)))
            refine ⟨m + 1, by simp only [List.length_cons]; omega, ?_, ?_⟩
            · simp only [approveItems, hc]
              rw [if_neg hm, if_neg ht]
              dsimp only
              rw [hm2, List.range_succ_eq_map, List.map_cons, List.map_map]
              simp only [List.cons.injEq]
              refine ⟨by norm_num, List.map_congr_left ?_⟩
              intro j _
              simp only [Function.comp]
              push_cast
              ring
            · intro hs
              simp only [approveItems, hc] at hs
              rw [if_neg hm, if_neg ht] at hs
              dsimp only at hs
              have := hm3 hs
              simp only [List.length_cons]
              omega

/-- The progress values set by `undoAll`'s loop, starting at index `i` with
enough fuel for the remaining entries. -/
theorem undoLoop_progress (undoOk : Nat → Bool) (total : Nat) :
    ∀ (fuel i : Nat) (s : VerifyState),
      s.captureImagesUndo.length = i + fuel →
      ∃ m, m ≤ fuel ∧
        (undoLoop undoOk total fuel i s).progress
          = (List.range m).map (fun j => 100 * ((((i + j : Nat) : ℚ) + 1) / (total : ℚ))) ∧
        ((undoLoop undoOk total fuel i s).success = true → m = fuel) := by
  intro fuel
  induction fuel with
  | zero =>
    intro i s _
    exact ⟨0, by simp [undoLoop]⟩
  | succ fuel ih =>
    intro i s hlen
    have hi : i < s.captureImagesUndo.length := by omega
    by_cases hu : undoOk i = true
    · obtain ⟨m, h1, h2, h3⟩ := ih (i + 1)
        { undoedCaptureImage s (s.captureImagesUndo.get ⟨i, hi⟩).id with
          approveAllComplete := 100 * (((i : ℚ) + 1) / (total : ℚ)),
          invalidateCaptureCount := true }
        (by simp only [undoedCaptureImage_undo]; omega)
      refine ⟨m + 1, by omega, ?_, ?_⟩
      · simp only [undoLoop]
        rw [dif_pos hi]
        simp only [hu, if_true]
        rw [h2, List.range_succ_eq_map, List.map_cons, List.map_map]
        simp only [List.cons.injEq]
        refine ⟨by norm_num, List.map_congr_left ?_⟩
        intro j _
        simp only [Function.comp]
        push_cast
        ring
      · intro hs
        simp only [undoLoop] at hs
        rw [dif_pos hi] at hs
        simp only [hu, if_true] at hs
        have := h3 hs
        omega
    · refine ⟨0, by omega, ?_, ?_⟩
      · simp only [undoLoop]
        rw [dif_pos hi]
        simp [hu]
      · simp only [undoLoop]
        rw [dif_pos hi]
        simp [hu]

/-- `approveAll` reports its loop's progress list and result unchanged. -/
theorem approveAll_progress_eq (s : VerifyState) (action : Option ApproveAction)
    (mainOk tagOk : Nat → Bool) (loadResult : List CaptureImage) :
    (approveAll s action mainOk tagOk loadResult).progress =
      (approveItems s.captureImages action mainOk tagOk s.captureImagesSelected.length
        s.captureImagesSelected 0 s.approveAllComplete).progress ∧
    (approveAll s action mainOk tagOk loadResult).success =
      (approveItems s.captureImages action mainOk tagOk s.captureImagesSelected.length
        s.captureImagesSelected 0 s.approveAllComplete).success := by
  by_cases hc : (approveItems s.captureImages action mainOk tagOk
      s.captureImagesSelected.length s.captureImagesSelected 0 s.approveAllComplete).success <;>
    simp [approveAll, hc]

/-- `undoAll` reports its loop's progress list and result unchanged. -/
theorem undoAll_progress_eq (s : VerifyState) (undoOk : Nat → Bool) :
    (undoAll s undoOk).progress =
      (undoLoop undoOk s.captureImagesUndo.length s.captureImagesUndo.length 0
        { s with isLoading := true, isApproveAllProcessing := true }).progress ∧
    (undoAll s undoOk).success =
      (undoLoop undoOk s.captureImagesUndo.length s.captureImagesUndo.length 0
        { s with isLoading := true, isApproveAllProcessing := true }).success := by
  by_cases hc : (undoLoop undoOk s.captureImagesUndo.length s.captureImagesUndo.length 0
      { s with isLoading := true, isApproveAllProcessing := true }).success <;>
    simp [undoAll, hc]

/-- A progress list of the canonical shape satisfies `progressSpec`. -/
theorem progressSpec_of_map (n m : Nat) (suc : Bool) (hn : 0 < n) (hm : m ≤ n)
    (hsuc : suc = true → m = n) :
    progressSpec ((List.range m).map
      (fun j : Nat => 100 * (((j : ℚ) + 1) / (n : ℚ)))) n suc := by
  have hnq : (0 : ℚ) < (n : ℚ) := by exact_mod_cast hn
  refine ⟨?_, ?_, ?_, ?_⟩
  · intro j hj
    rw [List.get_eq_getElem, List.getElem_map, List.getElem_range]
  · rw [List.chain'_iff_get]
    intro j hj
    simp only [List.length_map, List.length_range] at hj
    simp only [List.get_eq_getElem, List.getElem_map, List.getElem_range]
    have hstep : ((j : ℚ) + 1) ≤ ((j + 1 : Nat) : ℚ) + 1 := by push_cast; linarith
    rw [div_eq_mul_inv, div_eq_mul_inv]
    have h2 := mul_le_mul_of_nonneg_right hstep (inv_nonneg.mpr hnq.le)
    linarith
  · intro q hq
    obtain ⟨j, hj, rfl⟩ := List.mem_map.mp hq
    have hjm : j < m := List.mem_range.mp hj
    refine ⟨by positivity, ?_⟩
    have h1 : ((j : ℚ) + 1) / (n : ℚ) ≤ 1 := by
      rw [div_le_one hnq]
      have h2 : (j : ℚ) + 1 ≤ (m : ℚ) := by exact_mod_cast hjm
      have h3 : (m : ℚ) ≤ (n : ℚ) := by exact_mod_cast hm
      linarith
    linarith
  · intro hs
    have hmn := hsuc hs
    subst hmn
    rw [List.getLast?_eq_getElem?]
    simp only [List.length_map, List.length_range]
    rw [List.getElem?_map, List.getElem?_range (by omega)]
    have hcast : ((m - 1 : Nat) : ℚ) + 1 = (m : ℚ) := by
      rw [show ((m - 1 : Nat) : ℚ) + 1 = ((m - 1 + 1 : Nat) : ℚ) from by push_cast; ring,
        Nat.sub_add_cancel hn]
    simp only [Option.map_some']
    rw [hcast, div_self (ne_of_gt hnq)]
    norm_num

/-- C8: during every batch (approveAll over the selected ids or undoAll
over the undo entries, n > 0), the progress value set after the i-th
successfully processed item is `100 * (i / n)`, the sequence of values is
monotonically non-decreasing, stays in [0, 100], and ends at exactly 100
when every item was processed. -/
theorem percent_complete_progression (s : VerifyState) (action : Option ApproveAction)
    (mainOk tagOk undoOk : Nat → Bool) (loadResult : List CaptureImage) :
    (0 < s.captureImagesSelected.length →
      progressSpec (approveAll s action mainOk tagOk loadResult).progress
        s.captureImagesSelected.length
        (approveAll s action mainOk tagOk loadResult).success) ∧
    (0 < s.captureImagesUndo.length →
      progressSpec (undoAll s undoOk).progress
        s.captureImagesUndo.length
        (undoAll s undoOk).success) := by
  constructor
  · intro hn
    obtain ⟨m, h1, h2, h3⟩ := approveItems_progress s.captureImages action mainOk tagOk
      s.captureImagesSelected.length s.captureImagesSelected 0 s.approveAllComplete
    have hpe := approveAll_progress_eq s action mainOk tagOk loadResult
    rw [hpe.1, hpe.2, h2]
    simp only [Nat.zero_add]
    exact progressSpec_of_map s.captureImagesSelected.length m _ hn h1 (fun hs => h3 hs)
  · intro hn
    obtain ⟨m, h1, h2, h3⟩ := undoLoop_progress undoOk s.captureImagesUndo.length
      s.captureImagesUndo.length 0
      { s with isLoading := true, isApproveAllProcessing := true } (by simp)
    have hpe := undoAll_progress_eq s undoOk
    rw [hpe.1, hpe.2, h2]
    simp only [Nat.zero_add]
    exact progressSpec_of_map s.captureImagesUndo.length m _ hn h1 (fun hs => h3 hs)

/-- Witness for C8 at a concrete approve batch and a concrete undo batch. -/
theorem percent_complete_progression_witness :
    progressSpec (approveAll stateApproveSmall (some ⟨true, false⟩) (fun _ => true)
        (fun _ => true) []).progress stateApproveSmall.captureImagesSelected.length
      (approveAll stateApproveSmall (some ⟨true, false⟩) (fun _ => true)
        (fun _ => true) []).success ∧
    progressSpec (undoAll stateUndoPair (fun _ => true)).progress
      stateUndoPair.captureImagesUndo.length
      (undoAll stateUndoPair (fun _ => true)).success :=
  ⟨(percent_complete_progression stateApproveSmall (some ⟨true, false⟩) (fun _ => true)
      (fun _ => true) (fun _ => true) []).1 (by decide),
   (percent_complete_progression stateUndoPair none (fun _ => true) (fun _ => true)
      (fun _ => true) []).2 (by decide)⟩

/-- `lastIndexAux` returns its accumulator or a genuine hit: an index of an
entry whose id is the target, offset by the start index. -/
theorem lastIndexAux_spec (t : Nat) :
    ∀ (l : List CaptureImage) (i : Nat) (acc : Int),
      lastIndexAux l t i acc = acc ∨
      ∃ j, ∃ hj : j < l.length, lastIndexAux l t i acc = ((i + j : Nat) : Int) ∧
        (l.get ⟨j, hj⟩).id = t := by
  intro l
  induction l with
  | nil =>
    intro i acc
    left
    rfl
  | cons c rest ih =>
    intro i acc
    rcases ih (i + 1) (if c.id = t then (i : Int) else acc) with h | ⟨j, hj, he, hid⟩
    · by_cases hct : c.id = t
      · right
        refine ⟨0, by simp, ?_, by simpa using hct⟩
        show lastIndexAux rest t (i + 1) (if c.id = t then (i : Int) else acc)
          = ((i + 0 : Nat) : Int)
        rw [h, if_pos hct]
        norm_num
      · left
        show lastIndexAux rest t (i + 1) (if c.id = t then (i : Int) else acc) = acc
        rw [h, if_neg hct]
    · right
      refine ⟨j + 1, by simpa using Nat.succ_lt_succ hj, ?_, by simpa using hid⟩
      show lastIndexAux rest t (i + 1) (if c.id = t then (i : Int) else acc)
        = ((i + (j + 1) : Nat) : Int)
      rw [he]
      exact congrArg (fun k : Nat => (k : Int)) (by omega)

/-- A non-negative `lastIndexOfId` is a genuine index of an entry with the
target id. -/
theorem lastIndexOfId_found (l : List CaptureImage) (t : Nat)
    (h : 0 ≤ lastIndexOfId l t) :
    ∃ j, ∃ hj : j < l.length,
      lastIndexOfId l t = ((j : Nat) : Int) ∧ (l.get ⟨j, hj⟩).id = t := by
  rcases lastIndexAux_spec t l 0 (-1) with h0 | ⟨j, hj, he, hid⟩
  · rw [lastIndexOfId] at h
    rw [h0] at h
    norm_num at h
  · exact ⟨j, hj, by simpa using he, hid⟩

/-- `jsSlice` with in-range non-negative endpoints is drop-then-take. -/
theorem jsSlice_nonneg (l : List CaptureImage) (lo hi : Nat) (h1 : lo ≤ hi)
    (h2 : hi < l.length) :
    jsSlice l ((lo : Nat) : Int) (((hi : Nat) : Int) + 1) =
      (l.drop lo).take (hi + 1 - lo) := by
  unfold jsSlice sliceIndex
  have e1 : ¬(((lo : Nat) : Int) < 0) := by omega
  have e2 : ¬((((hi : Nat) : Int) + 1) < 0) := by omega
  rw [if_neg e1, if_neg e2, Int.toNat_natCast,
    show (((hi : Nat) : Int) + 1) = ((hi + 1 : Nat) : Int) from by push_cast; ring,
    Int.toNat_natCast, min_eq_left (by omega), min_eq_left (by omega)]

/-- The entry at position `j` with `lo ≤ j ≤ hi` belongs to the slice of
positions `lo` through `hi`. -/
theorem get_mem_drop_take (l : List CaptureImage) (lo hi j : Nat) (h1 : lo ≤ j)
    (h2 : j ≤ hi) (hj : j < l.length) (hhi : hi < l.length) :
    l.get ⟨j, hj⟩ ∈ (l.drop lo).take (hi + 1 - lo) := by
  have hlen : j - lo < ((l.drop lo).take (hi + 1 - lo)).length := by
    simp only [List.length_take, List.length_drop]
    omega
  have hget : ((l.drop lo).take (hi + 1 - lo)).get ⟨j - lo, hlen⟩ = l.get ⟨j, hj⟩ := by
    rw [List.get_eq_getElem, List.get_eq_getElem, List.getElem_take, List.getElem_drop]
    simp only [show lo + (j - lo) = j from by omega]
  rw [← hget, List.get_eq_getElem]
  exact List.getElem_mem _

/-- Counterexample to C3: with working set ids `[1, 2, 3]` and the stale
anchor id 99 (set but absent), shift-clicking id 1 yields the empty
selection instead of the range from index 0 to the clicked item. -/
theorem shift_click_stale_anchor_cex :
    (clickCapture stateAnchorStale ⟨1, true, false, false⟩).captureImagesSelected = [] ∧
    ¬ ((1 : Nat) ∈
      (clickCapture stateAnchorStale ⟨1, true, false, false⟩).captureImagesSelected) ∧
    stateAnchorStale.captureImageAnchor = some 99 ∧
    ¬ ((99 : Nat) ∈ stateAnchorStale.captureImages.map (fun c => c.id)) ∧
    (1 : Nat) ∈ stateAnchorStale.captureImages.map (fun c => c.id) := by
  decide

/-- C3 (amended): when the clicked id is present in the working set and the
anchor is either unset (index 0) or present in the working set, shift-click
selects exactly the ids of the entries between the two indices inclusive,
in working-set order; the selection contains the clicked id and the anchor
id (or the first entry's id when no anchor is set), and the anchor is
unchanged.  (When an anchor id is set but absent, the source computes index
`-1`, not 0, and the JS slice then starts at the last entry.) -/
theorem shift_click_range_amended (s : VerifyState) (captureId : Nat)
    (hc : 0 ≤ lastIndexOfId s.captureImages captureId)
    (ha : 0 ≤ anchorIndex s) :
    (clickCapture s ⟨captureId, true, false, false⟩).captureImagesSelected =
      ((s.captureImages.drop
          (min (anchorIndex s).toNat (lastIndexOfId s.captureImages captureId).toNat)).take
        (max (anchorIndex s).toNat (lastIndexOfId s.captureImages captureId).toNat + 1 -
          min (anchorIndex s).toNat
            (lastIndexOfId s.captureImages captureId).toNat)).map (fun c => c.id) ∧
    captureId ∈ (clickCapture s ⟨captureId, true, false, false⟩).captureImagesSelected ∧
    (∀ a, s.captureImageAnchor = some a →
      a ∈ (clickCapture s ⟨captureId, true, false, false⟩).captureImagesSelected) ∧
    (s.captureImageAnchor = none →
      ∀ h0 : 0 < s.captureImages.length,
        (s.captureImages.get ⟨0, h0⟩).id ∈
          (clickCapture s ⟨captureId, true, false, false⟩).captureImagesSelected) ∧
    (clickCapture s ⟨captureId, true, false, false⟩).captureImageAnchor
      = s.captureImageAnchor := by
  obtain ⟨jC, hjC, heC, hidC⟩ := lastIndexOfId_found s.captureImages captureId hc
  have hsel : (clickCapture s ⟨captureId, true, false, false⟩).captureImagesSelected =
      (jsSlice s.captureImages
        (min (anchorIndex s) (lastIndexOfId s.captureImages captureId))
        (max (anchorIndex s) (lastIndexOfId s.captureImages captureId) + 1)).map
        (fun c => c.id) := by
    simp [clickCapture]
  have hanchor : (clickCapture s ⟨captureId, true, false, false⟩).captureImageAnchor
      = s.captureImageAnchor := by
    simp [clickCapture]
  obtain ⟨jA, hjA, heA, hAinfo⟩ :
      ∃ jA, ∃ hjA : jA < s.captureImages.length,
        anchorIndex s = ((jA : Nat) : Int) ∧
        (∀ a, s.captureImageAnchor = some a → (s.captureImages.get ⟨jA, hjA⟩).id = a) ∧
        (s.captureImageAnchor = none → jA = 0) := by
    cases hAs : s.captureImageAnchor with
    | none =>
      have hne : 0 < s.captureImages.length := by omega
      exact ⟨0, hne, by simp [anchorIndex, hAs],
        fun b hb => Option.noConfusion hb, fun _ => rfl⟩
    | some a =>
      have ha2 : 0 ≤ lastIndexOfId s.captureImages a := by
        simp only [anchorIndex, hAs] at ha
        exact ha
      obtain ⟨jA, hjA, heA, hidA⟩ := lastIndexOfId_found s.captureImages a ha2
      refine ⟨jA, hjA, ?_, ?_, fun hn => Option.noConfusion hn⟩
      · simp only [anchorIndex, hAs]
        exact heA
      · intro b hb
        injection hb with hb
        exact hb ▸ hidA
  have hslice : (clickCapture s ⟨captureId, true, false, false⟩).captureImagesSelected =
      ((s.captureImages.drop (min jA jC)).take (max jA jC + 1 - min jA jC)).map
        (fun c => c.id) := by
    rw [hsel, heA, heC, ← Nat.cast_min, ← Nat.cast_max,
      jsSlice_nonneg s.captureImages (min jA jC) (max jA jC) (min_le_max)
        (by omega)]
  have htoNat : (anchorIndex s).toNat = jA ∧
      (lastIndexOfId s.captureImages captureId).toNat = jC := by
    rw [heA, heC, Int.toNat_natCast, Int.toNat_natCast]
    exact ⟨rfl, rfl⟩
  refine ⟨?_, ?_, ?_, ?_, hanchor⟩
  · rw [hslice, htoNat.1, htoNat.2]
  · rw [hslice, ← hidC]
    exact List.mem_map_of_mem (fun c => c.id)
      (get_mem_drop_take s.captureImages (min jA jC) (max jA jC) jC
        (min_le_right _ _) (le_max_right _ _) hjC (by omega))
  · intro a hb
    rw [hslice, ← hAinfo.1 a hb]
    exact List.mem_map_of_mem (fun c => c.id)
      (get_mem_drop_take s.captureImages (min jA jC) (max jA jC) jA
        (min_le_left _ _) (le_max_left _ _) hjA (by omega))
  · intro hn h0
    have hj0 : jA = 0 := hAinfo.2 hn
    rw [hslice]
    have : s.captureImages.get ⟨0, h0⟩ ∈
        (s.captureImages.drop (min jA jC)).take (max jA jC + 1 - min jA jC) := by
      refine get_mem_drop_take s.captureImages (min jA jC) (max jA jC) 0 ?_ ?_ h0 (by omega)
      · omega
      · omega
    exact List.mem_map_of_mem (fun c => c.id) this

/-- Witness for the amended C3: working set ids `[1, 2, 3]`, anchor id 3
(index 2), shift-click id 1 (index 0) selects `[1, 2, 3]`. -/
theorem shift_click_range_amended_witness :
    (clickCapture stateApproveSmall ⟨1, true, false, false⟩).captureImagesSelected =
      ((stateApproveSmall.captureImages.drop
          (min (anchorIndex stateApproveSmall).toNat
            (lastIndexOfId stateApproveSmall.captureImages 1).toNat)).take
        (max (anchorIndex stateApproveSmall).toNat
            (lastIndexOfId stateApproveSmall.captureImages 1).toNat + 1 -
          min (anchorIndex stateApproveSmall).toNat
            (lastIndexOfId stateApproveSmall.captureImages 1).toNat)).map
        (fun c => c.id) ∧
    (1 : Nat) ∈
      (clickCapture stateApproveSmall ⟨1, true, false, false⟩).captureImagesSelected :=
  ⟨(shift_click_range_amended stateApproveSmall 1 (by decide) (by decide)).1,
   (shift_click_range_amended stateApproveSmall 1 (by decide) (by decide)).2.1⟩
